import Mathlib

/-!
Verification of the Wargame MCP chunking and vector-store pipeline.

Shallow embedding of the Python modules of src/wargame_mcp:
  chunking.py, documents.py, embeddings.py, vectorstore.py (the in-memory
  fallback engine), mcp_tools.py and ingest.py.
Tokens are modelled as natural numbers, token sequences as lists, machine
floats as real numbers, Python exceptions as an Except value, and the global
in-memory fallback store as an explicit list of stored entries passed to and
returned from each operation.
-/

namespace Wargame

/-! ## chunking.py

CHUNK_SIZE_TOKENS = 800 and CHUNK_OVERLAP_TOKENS = 200 are inlined as the
literals 800, 600 (= 800 - 200) below, exactly as chunk_text uses them. -/

/-- Boundary loop of chunk_text: start at a given offset; each step records
the pair (start, min total (start + 800)); it stops when the recorded end
has reached the token count and otherwise advances start by 800 - 200 = 600. -/
def chunkBoundariesGo (total start : ℕ) : List (ℕ × ℕ) :=
  if total ≤ min total (start + 800) then
    [(start, min total (start + 800))]
  else
    (start, min total (start + 800)) :: chunkBoundariesGo total (start + 600)
termination_by total - start
decreasing_by
  simp only [not_le] at *
  omega

/-- First pass of chunk_text: all window boundaries for a document of the
given total token count, starting at offset 0. -/
def chunkBoundaries (total : ℕ) : List (ℕ × ℕ) :=
  chunkBoundariesGo total 0

/-- DocumentChunk as chunk_text constructs it, with the decoded text kept as
the token slice it decodes (the tokenizer round-trip is external). -/
structure Chunk where
  id : String
  tokens : List ℕ
  chunk_index : ℕ
  chunk_count : ℕ
deriving Repr, DecidableEq

/-- chunk_text of chunking.py: empty token sequences produce no chunks;
otherwise one chunk per boundary pair, carrying the boundary count as
chunk_count, its position as chunk_index and the id "{document_id}:{i}"
(written here by concatenation). -/
def chunk_text (document_id : String) (tokens : List ℕ) : List Chunk :=
  if tokens.isEmpty then []
  else
    let bs := chunkBoundaries tokens.length
    let n := bs.length
    bs.enum.map fun p =>
      { id := document_id ++ ":" ++ toString p.1
        tokens := (tokens.drop p.2.1).take (p.2.2 - p.2.1)
        chunk_index := p.1
        chunk_count := n }

/-! ## documents.py -/

/-- Value held by the tags metadata field. The Python code dispatches on it
with isinstance: a list of strings before flattening, a joined string after. -/
inductive MetaTags where
  | ofString (s : String)
  | ofList (l : List String)
deriving Repr, DecidableEq

/-- DocumentMetadata of documents.py (the fields of as_dict). -/
structure DocumentMetadata where
  document_id : String
  source : String
  collection : String
  title : Option String
  year : Option ℤ
  doctrine : Option String
  tags : List String
deriving Repr, DecidableEq

/-- DocumentChunk of documents.py as the vector store consumes it: the text is
kept abstract as a string. -/
structure DocumentChunk where
  id : String
  text : String
  metadata : DocumentMetadata
  chunk_index : ℤ
  chunk_count : ℤ
deriving Repr, DecidableEq

/-- Flat metadata dictionary a stored record carries: every DocumentMetadata
field plus chunk_index and chunk_count, as chroma_metadata builds it. -/
structure StoredMeta where
  document_id : String
  source : String
  collection : String
  title : Option String
  year : Option ℤ
  doctrine : Option String
  tags : MetaTags
  chunk_index : ℤ
  chunk_count : ℤ
deriving Repr, DecidableEq

/-- chroma_metadata of documents.py: as_dict of the parent metadata updated
with chunk_index and chunk_count; tags is still the list at this point. -/
def chroma_metadata (c : DocumentChunk) : StoredMeta :=
  { document_id := c.metadata.document_id
    source := c.metadata.source
    collection := c.metadata.collection
    title := c.metadata.title
    year := c.metadata.year
    doctrine := c.metadata.doctrine
    tags := MetaTags.ofList c.metadata.tags
    chunk_index := c.chunk_index
    chunk_count := c.chunk_count }

/-! ## Tag flattening and restoration (vectorstore.py)

The store joins a list-valued tags field with "," on write and splits it
back on read: [t.strip() for t in tags.split(",") if t.strip()]. The string
operations are modelled character by character. -/

/-- Model of ",".join(tags). -/
def pyJoinComma (l : List String) : String :=
  (List.intercalate [','] (l.map String.toList)).asString

/-- Both-ends whitespace strip on a character list. -/
def pyStripChars (cs : List Char) : List Char :=
  ((cs.dropWhile Char.isWhitespace).reverse.dropWhile Char.isWhitespace).reverse

/-- Model of Python str.strip() with no arguments. -/
def pyStrip (s : String) : String :=
  (pyStripChars s.toList).asString

/-- Model of s.split(","). -/
def pySplitComma (s : String) : List String :=
  (s.toList.splitOn ',').map List.asString

/-- Model of [t.strip() for t in s.split(",") if t.strip()]. -/
def readTagsString (s : String) : List String :=
  ((pySplitComma s).map pyStrip).filter (fun t => t ≠ "")

/-- Write-side encoding of upsert_chunks: a list-valued tags field is joined
into one string; any other value is stored as is (the isinstance dispatch). -/
def flattenTags : MetaTags → MetaTags
  | MetaTags.ofList l => MetaTags.ofString (pyJoinComma l)
  | t => t

/-- Read-side decoding of query: a string-valued tags field is split, each
piece stripped, empty pieces dropped; any other value is returned as is. -/
def restoreTags : MetaTags → MetaTags
  | MetaTags.ofString s => MetaTags.ofList (readTagsString s)
  | t => t

/-- Metadata as the read path returns it: a copy with tags restored. -/
def restoreMetaTags (m : StoredMeta) : StoredMeta :=
  { m with tags := restoreTags m.tags }

/-- Modelled from the spec: normalize_metadata is imported by mcp_tools.py
from vectorstore.py but is defined in no file of the repository. The spec
says list-valued metadata fields are restored to a list on read,
transparently to callers; it is modelled as the same tags restoration the
query path applies. -/
def normalize_metadata (m : StoredMeta) : StoredMeta :=
  restoreMetaTags m

/-! ## embeddings.py -/

/-- UTF-8 bytes of a string, as text.encode("utf-8") produces them. -/
def stringBytes (s : String) : List ℕ :=
  s.toUTF8.toList.map (fun b => b.toNat)

/-- FakeEmbeddingProvider.embed on one string, parametrized by the digest
function (hashlib.sha256(...).digest() is external library code; SHA-256
always returns 32 bytes, each in 0..255): tile the digest of the string's
bytes up to the configured dimension and divide each byte by 255. -/
noncomputable def fakeEmbedOne (digest : List ℕ → List ℕ) (dimensions : ℕ)
    (s : String) : List ℝ :=
  let d := digest (stringBytes s)
  let repeated := (List.flatten (List.replicate (dimensions / d.length + 1) d)).take dimensions
  repeated.map (fun b : ℕ => (b : ℝ) / 255)

/-- FakeEmbeddingProvider.embed: one vector per input string, in order. -/
noncomputable def fakeEmbed (digest : List ℕ → List ℕ) (dimensions : ℕ)
    (texts : List String) : List (List ℝ) :=
  texts.map (fakeEmbedOne digest dimensions)

/-! ## vectorstore.py — the in-memory fallback engine

The module-level _fallback_store list is passed explicitly: each operation
takes the store before the call and returns the store after it. -/

/-- Record of the fallback store: {"id", "text", "metadata", "embedding"}. -/
structure StoredEntry where
  id : String
  text : String
  metadata : StoredMeta
  embedding : List ℝ

/-- SearchResult dataclass of vectorstore.py. -/
structure SearchResult where
  id : String
  text : String
  score : ℝ
  metadata : StoredMeta

/-- Local dot of _cosine_similarity: sum of vector_a[i] * vector_b[i] over
the common prefix (zipWith truncates at the shorter list, as range(length)
does). -/
noncomputable def dotCommon (vector_a vector_b : List ℝ) : ℝ :=
  (List.zipWith (fun x y => x * y) vector_a vector_b).sum

/-- Local norm_a / norm_b of _cosine_similarity: square root of the sum of
squares of the first l components. -/
noncomputable def normCommon (v : List ℝ) (l : ℕ) : ℝ :=
  Real.sqrt (((v.take l).map (fun x => x * x)).sum)

open scoped Classical in
/-- Function _cosine_similarity of vectorstore.py over exact reals: empty
operands score 0.0; norms are taken over the common prefix of the two
vectors; a zero norm scores 0.0; otherwise the cosine is rescaled by
(cosine + 1) / 2 and clamped into [0, 1]. -/
noncomputable def cosine_similarity (vector_a vector_b : List ℝ) : ℝ :=
  if vector_a = [] ∨ vector_b = [] then 0
  else if normCommon vector_a (min vector_a.length vector_b.length) = 0
      ∨ normCommon vector_b (min vector_a.length vector_b.length) = 0 then 0
  else
    max (min ((dotCommon vector_a vector_b
        / (normCommon vector_a (min vector_a.length vector_b.length)
            * normCommon vector_b (min vector_a.length vector_b.length)) + 1) / 2) 1) 0

/-- Function upsert_chunks of vectorstore.py, fallback path. The body begins
with _fallback_store.clear(), so the store before the call is discarded
entirely; then one record is appended per chunk/vector pair (zip with
strict=False truncates at the shorter list), with a list-valued tags field
joined into one string. -/
def upsert_chunks (_store : List StoredEntry) (chunks : List DocumentChunk)
    (embeddings : List (List ℝ)) : List StoredEntry :=
  (chunks.zip embeddings).map fun cv =>
    { id := cv.1.id
      text := cv.1.text
      metadata := { chroma_metadata cv.1 with
                      tags := flattenTags (chroma_metadata cv.1).tags }
      embedding := cv.2 }

/-- Function delete_document of vectorstore.py, fallback path: keep exactly
the entries whose metadata document_id differs from the argument. -/
def delete_document (store : List StoredEntry) (document_id : String) :
    List StoredEntry :=
  store.filter fun e => e.metadata.document_id ≠ document_id

/-- Descending-score order used by hits.sort(key=score, reverse=True). -/
def scoreGE (a b : SearchResult) : Prop :=
  b.score ≤ a.score

instance : IsTotal SearchResult scoreGE :=
  ⟨fun a b => le_total b.score a.score⟩

instance : IsTrans SearchResult scoreGE :=
  ⟨fun _ _ _ h1 h2 => le_trans h2 h1⟩

noncomputable instance : DecidableRel scoreGE :=
  fun a b => Real.decidableLE b.score a.score

/-- Python slice l[:k] for an int k: nonnegative k keeps the first k
elements; negative k drops the last |k| elements. -/
def pySlice {α : Type} (l : List α) (k : ℤ) : List α :=
  if 0 ≤ k then l.take k.toNat else l.take (l.length - (-k).toNat)

open scoped Classical in
/-- Function query of vectorstore.py, fallback path. The embedding provider
is passed as the function its embed method denotes (search always builds
one, so the provider-is-None RuntimeError branch is unreachable here); the
query vector is its first vector for [query_text]. Entries failing the
collections filter or scoring strictly below min_score are skipped; hits
are sorted by score descending and cut to the first top_k. -/
noncomputable def query (store : List StoredEntry)
    (providerEmbed : List String → List (List ℝ)) (query_text : String)
    (top_k : ℤ) (min_score : ℝ) (collections : List String) :
    List SearchResult :=
  let vector := (providerEmbed [query_text]).getD 0 []
  let hits := store.filterMap fun entry =>
    if collections ≠ [] ∧ entry.metadata.collection ∉ collections then none
    else
      let score := cosine_similarity vector entry.embedding
      if score < min_score then none
      else some { id := entry.id
                  text := entry.text
                  score := score
                  metadata := restoreMetaTags entry.metadata }
  pySlice (List.insertionSort scoreGE hits) top_k

/-! ## mcp_tools.py -/

open scoped Classical in
/-- Function search_wargame_documents of mcp_tools.py. The body contains no
parameter validation: it builds a provider, forwards every argument to
query and serializes the hits (the serialization copies the four fields
unchanged, so it is the identity here). Nothing in this path raises for out
of range top_k or min_score, hence the result is always Except.ok. -/
noncomputable def search_wargame_documents (store : List StoredEntry)
    (providerEmbed : List String → List (List ℝ)) (query_text : String)
    (top_k : ℤ) (min_score : ℝ) (collections : List String) :
    Except String (List SearchResult) :=
  Except.ok (query store providerEmbed query_text top_k min_score collections)

/-- Chunk record returned by get_document_span. The stored metadata has no
chunk_id key, so the id field metadata.get("chunk_id") is always None. -/
structure SpanChunk where
  id : Option String
  chunk_index : ℤ
  text : String
  metadata : StoredMeta
deriving Repr, DecidableEq

/-- Ascending chunk_index order used by chunks.sort(key=chunk_index). -/
def chunkIndexLE (a b : SpanChunk) : Prop :=
  a.chunk_index ≤ b.chunk_index

instance : IsTotal SpanChunk chunkIndexLE :=
  ⟨fun a b => le_total a.chunk_index b.chunk_index⟩

instance : IsTrans SpanChunk chunkIndexLE :=
  ⟨fun _ _ _ h1 h2 => le_trans h1 h2⟩

instance : DecidableRel chunkIndexLE :=
  fun a b => Int.decLe a.chunk_index b.chunk_index

/-- Function get_document_span of mcp_tools.py: a negative span raises
ValueError before the store is touched; otherwise the stored chunks of the
document are collected (collection.get filtered on document_id), sorted by
chunk_index ascending, and cut to the window from max 0 (center - span) to
center + span inclusive; a document with no chunks returns the empty list. -/
def get_document_span (store : List StoredEntry) (document_id : String)
    (center_chunk_index : ℤ) (span : ℤ) : Except String (List SpanChunk) :=
  if span < 0 then Except.error "span must be >= 0"
  else
    let chunks := (store.filter fun e =>
        e.metadata.document_id = document_id).map fun e =>
      { id := none
        chunk_index := e.metadata.chunk_index
        text := e.text
        metadata := normalize_metadata e.metadata : SpanChunk }
    if chunks.isEmpty then Except.ok []
    else
      let sorted := List.insertionSort chunkIndexLE chunks
      let first := max 0 (center_chunk_index - span)
      let last := center_chunk_index + span
      Except.ok (sorted.filter fun c =>
        first ≤ c.chunk_index ∧ c.chunk_index ≤ last)

/-! ## ingest.py -/

/-- Store effects of _ingest_file of ingest.py: metadata resolution, reading
and chunking precede any store access; then delete_document runs, then the
embedding call either returns vectors or raises, and upsert_chunks runs only
on success. The pair holds the store after the call and the error message
the caller catches, if any: a raise does not restore the deleted records. -/
def ingest_file (store : List StoredEntry) (document_id : String)
    (chunks : List DocumentChunk)
    (embedOutcome : Option (List (List ℝ))) : List StoredEntry × Option String :=
  let cleared := delete_document store document_id
  match embedOutcome with
  | none => (cleared, some "Failed to ingest")
  | some vectors => (upsert_chunks cleared chunks vectors, none)

/-! ### Chunk-boundary lemmas -/

lemma chunkBoundariesGo_head (total start : ℕ) :
    ∃ tl, chunkBoundariesGo total start =
      (start, min total (start + 800)) :: tl := by
  rw [chunkBoundariesGo]
  split <;> exact ⟨_, rfl⟩

lemma chunkBoundariesGo_mem (total start : ℕ) :
    start < total → ∀ p ∈ chunkBoundariesGo total start,
      start ≤ p.1 ∧ p.1 < total ∧ p.2 = min total (p.1 + 800) := by
  induction start using chunkBoundariesGo.induct total with
  | case1 start hstop =>
    intro h p hp
    rw [chunkBoundariesGo, if_pos hstop] at hp
    simp only [List.mem_singleton] at hp
    subst hp
    exact ⟨le_refl _, h, rfl⟩
  | case2 start hstop ih =>
    intro h p hp
    rw [chunkBoundariesGo, if_neg hstop] at hp
    simp only [not_le] at hstop
    rcases List.mem_cons.mp hp with hp | hp
    · subst hp
      exact ⟨le_refl _, h, rfl⟩
    · have h6 : start + 600 < total := by omega
      rcases ih h6 p hp with ⟨h1, h2, h3⟩
      exact ⟨by omega, h2, h3⟩

lemma chunkBoundariesGo_cover (total start : ℕ) :
    start < total → ∀ t, start ≤ t → t < total →
      ∃ p ∈ chunkBoundariesGo total start, p.1 ≤ t ∧ t < p.2 := by
  induction start using chunkBoundariesGo.induct total with
  | case1 start hstop =>
    intro _h t hst htt
    refine ⟨(start, min total (start + 800)), ?_, hst, ?_⟩
    · rw [chunkBoundariesGo, if_pos hstop]
      simp
    · omega
  | case2 start hstop ih =>
    intro _h t hst htt
    simp only [not_le] at hstop
    by_cases hlt : t < min total (start + 800)
    · refine ⟨(start, min total (start + 800)), ?_, hst, hlt⟩
      rw [chunkBoundariesGo, if_neg (by omega)]
      simp
    · have h6 : start + 600 < total := by omega
      have h6t : start + 600 ≤ t := by omega
      rcases ih h6 t h6t htt with ⟨p, hp, hp1, hp2⟩
      refine ⟨p, ?_, hp1, hp2⟩
      rw [chunkBoundariesGo, if_neg (by omega)]
      exact List.mem_cons_of_mem _ hp

lemma chunkBoundariesGo_consecutive (total start : ℕ) :
    ∀ p ∈ (chunkBoundariesGo total start).zip (chunkBoundariesGo total start).tail,
      p.1.2 = p.1.1 + 800 ∧ p.2.1 = p.1.1 + 600 := by
  induction start using chunkBoundariesGo.induct total with
  | case1 start hstop =>
    intro p hp
    rw [chunkBoundariesGo, if_pos hstop] at hp
    simp at hp
  | case2 start hstop ih =>
    intro p hp
    simp only [not_le] at hstop
    rcases chunkBoundariesGo_head total (start + 600) with ⟨tl, htl⟩
    rw [chunkBoundariesGo, if_neg (by omega), htl] at hp
    simp only [List.zip_cons_cons, List.tail_cons, List.mem_cons] at hp
    rcases hp with hp | hp
    · subst hp
      constructor
      · simp only
        omega
      · rfl
    · have := ih p
      rw [htl] at this
      exact this hp

/-- C2: for every non-empty token sequence, the boundary iteration of
chunk_text (start = 0, end = min total (start + 800), stop at total,
stride 600) covers [0, total) with no gaps, every window ends within the
token range, consecutive windows overlap by exactly 200 tokens, and every
window that has a successor (every non-final window) spans exactly 800
tokens, so only the final window may be shorter. -/
theorem chunkBoundaries_window_spec (total : ℕ) (h : 0 < total) :
    (∀ t, t < total → ∃ p ∈ chunkBoundaries total, p.1 ≤ t ∧ t < p.2)
    ∧ (∀ p ∈ chunkBoundaries total, p.1 < p.2 ∧ p.2 ≤ p.1 + 800 ∧ p.2 ≤ total)
    ∧ (∀ p ∈ (chunkBoundaries total).zip (chunkBoundaries total).tail,
        p.1.2 = p.1.1 + 800 ∧ p.2.1 = p.1.1 + 600 ∧ p.2.1 + 200 = p.1.2) := by
  refine ⟨?_, ?_, ?_⟩
  · intro t ht
    exact chunkBoundariesGo_cover total 0 h t (Nat.zero_le t) ht
  · intro p hp
    rcases chunkBoundariesGo_mem total 0 h p hp with ⟨_, h1, h2⟩
    refine ⟨?_, ?_, ?_⟩ <;> omega
  · intro p hp
    rcases chunkBoundariesGo_consecutive total 0 p hp with ⟨h1, h2⟩
    exact ⟨h1, h2, by omega⟩

/-- Witness for C2 at the concrete token count 1000 (the spec's own worked
scenario: two windows, (0, 800) and (600, 1000)). -/
theorem chunkBoundaries_window_spec_witness :
    0 < 1000
    ∧ ((∀ t, t < 1000 → ∃ p ∈ chunkBoundaries 1000, p.1 ≤ t ∧ t < p.2)
      ∧ (∀ p ∈ chunkBoundaries 1000, p.1 < p.2 ∧ p.2 ≤ p.1 + 800 ∧ p.2 ≤ 1000)
      ∧ (∀ p ∈ (chunkBoundaries 1000).zip (chunkBoundaries 1000).tail,
          p.1.2 = p.1.1 + 800 ∧ p.2.1 = p.1.1 + 600 ∧ p.2.1 + 200 = p.1.2)) :=
  ⟨by norm_num, chunkBoundaries_window_spec 1000 (by norm_num)⟩

/-- C5: every chunk produced by chunk_text carries chunk_count equal to the
number of chunks actually produced, the chunk_index values are exactly
0, 1, ..., count - 1 in order, and each chunk id is the document id followed
by a colon and its chunk_index. -/
theorem chunk_text_id_index_spec (document_id : String) (tokens : List ℕ) :
    (∀ c ∈ chunk_text document_id tokens,
        c.chunk_count = (chunk_text document_id tokens).length)
    ∧ (chunk_text document_id tokens).map (fun c => c.chunk_index)
        = List.range (chunk_text document_id tokens).length
    ∧ (∀ c ∈ chunk_text document_id tokens,
        c.id = document_id ++ ":" ++ toString c.chunk_index) := by
  unfold chunk_text
  by_cases he : tokens.isEmpty
  · simp [he]
  · rw [if_neg he]
    set bs := chunkBoundaries tokens.length with hbs
    have hlen : (bs.enum.map fun p =>
        ({ id := document_id ++ ":" ++ toString p.1
           tokens := (tokens.drop p.2.1).take (p.2.2 - p.2.1)
           chunk_index := p.1
           chunk_count := bs.length } : Chunk)).length = bs.length := by
      rw [List.length_map, List.enum_length]
    refine ⟨?_, ?_, ?_⟩
    · intro c hc
      rcases List.mem_map.mp hc with ⟨p, _, rfl⟩
      simp only
      rw [hlen]
    · rw [hlen, List.map_map]
      have : ((fun c => c.chunk_index) ∘ fun p : ℕ × ℕ × ℕ =>
          ({ id := document_id ++ ":" ++ toString p.1
             tokens := (tokens.drop p.2.1).take (p.2.2 - p.2.1)
             chunk_index := p.1
             chunk_count := bs.length } : Chunk)) = Prod.fst := rfl
      rw [this, List.enum_map_fst]
    · intro c hc
      rcases List.mem_map.mp hc with ⟨p, _, rfl⟩
      rfl

/-! ### Cosine-similarity lemmas -/

lemma cosine_similarity_shape (a b : List ℝ) :
    cosine_similarity a b = 0
    ∨ ∃ x : ℝ, cosine_similarity a b = max (min x 1) 0 := by
  unfold cosine_similarity
  split
  · exact Or.inl rfl
  · split
    · exact Or.inl rfl
    · exact Or.inr ⟨_, rfl⟩

lemma cosine_similarity_nonneg (a b : List ℝ) : 0 ≤ cosine_similarity a b := by
  rcases cosine_similarity_shape a b with h | ⟨x, h⟩ <;> rw [h]
  exact le_max_right _ _

lemma cosine_similarity_le_one (a b : List ℝ) : cosine_similarity a b ≤ 1 := by
  rcases cosine_similarity_shape a b with h | ⟨x, h⟩ <;> rw [h]
  · exact zero_le_one
  · exact max_le (min_le_right x 1) zero_le_one

/-- C7: the similarity computation is total and bounded: its value always
lies in [0, 1], an empty operand yields exactly 0, and a zero-norm operand
(the norm being taken over the common prefix, as the code takes it) yields
exactly 0 instead of a division error. -/
theorem cosine_similarity_total_spec (a b : List ℝ) :
    (0 ≤ cosine_similarity a b ∧ cosine_similarity a b ≤ 1)
    ∧ (a = [] ∨ b = [] → cosine_similarity a b = 0)
    ∧ (normCommon a (min a.length b.length) = 0
        ∨ normCommon b (min a.length b.length) = 0 →
        cosine_similarity a b = 0) := by
  refine ⟨⟨cosine_similarity_nonneg a b, cosine_similarity_le_one a b⟩, ?_, ?_⟩
  · intro h
    unfold cosine_similarity
    rw [if_pos h]
  · intro h
    unfold cosine_similarity
    by_cases h1 : a = [] ∨ b = []
    · rw [if_pos h1]
    · rw [if_neg h1, if_pos h]

/-! ### Embedding lemmas and claim C9 -/

/-- C9: the deterministic provider is order-preserving and one-vector-per-
string (empty input gives empty output, appending inputs appends outputs);
under the SHA-256 digest contract (32 bytes, each at most 255) every vector
has exactly the configured dimension with components in [0, 1]; and the
vector for a string is a function of the string's UTF-8 bytes alone, so
equal byte sequences give identical vectors. -/
theorem fake_embed_spec (digest : List ℕ → List ℕ) (dimensions : ℕ)
    (hLen : ∀ bs, (digest bs).length = 32)
    (hByte : ∀ bs b, b ∈ digest bs → b ≤ 255) :
    fakeEmbed digest dimensions [] = []
    ∧ (∀ texts, (fakeEmbed digest dimensions texts).length = texts.length)
    ∧ (∀ ts1 ts2, fakeEmbed digest dimensions (ts1 ++ ts2)
        = fakeEmbed digest dimensions ts1 ++ fakeEmbed digest dimensions ts2)
    ∧ (∀ texts v, v ∈ fakeEmbed digest dimensions texts →
        v.length = dimensions ∧ ∀ x ∈ v, 0 ≤ x ∧ x ≤ 1)
    ∧ (∀ s1 s2, stringBytes s1 = stringBytes s2 →
        fakeEmbedOne digest dimensions s1 = fakeEmbedOne digest dimensions s2) := by
  refine ⟨rfl, ?_, ?_, ?_, ?_⟩
  · intro texts
    exact List.length_map texts _
  · intro ts1 ts2
    exact List.map_append _ ts1 ts2
  · intro texts v hv
    rcases List.mem_map.mp hv with ⟨s, _, rfl⟩
    unfold fakeEmbedOne
    have hrep : (List.flatten (List.replicate
        (dimensions / (digest (stringBytes s)).length + 1)
        (digest (stringBytes s)))).length
        = (dimensions / 32 + 1) * 32 := by
      rw [List.length_flatten, List.map_replicate, hLen]
      simp [List.sum_replicate, smul_eq_mul]
    constructor
    · rw [List.length_map, List.length_take, hrep]
      have h32 : dimensions ≤ (dimensions / 32 + 1) * 32 := by
        have := Nat.div_add_mod dimensions 32
        have := Nat.mod_lt dimensions (show 0 < 32 by norm_num)
        omega
      omega
    · intro x hx
      rcases List.mem_map.mp hx with ⟨n, hn, rfl⟩
      have hmem : n ∈ digest (stringBytes s) := by
        rcases List.mem_flatten.mp (List.mem_of_mem_take hn) with ⟨l, hl, hnl⟩
        rcases List.eq_of_mem_replicate hl with rfl
        exact hnl
      have hle : n ≤ 255 := hByte _ _ hmem
      constructor
      · positivity
      · rw [div_le_one (by norm_num)]
        exact_mod_cast hle
  · intro s1 s2 h
    unfold fakeEmbedOne
    rw [h]

/-- Witness for C9 at a concrete digest function satisfying the SHA-256
output contract. -/
theorem fake_embed_spec_witness :
    fakeEmbed (fun _ => List.replicate 32 0) 1536 [] = []
    ∧ (∀ texts, (fakeEmbed (fun _ => List.replicate 32 0) 1536 texts).length
        = texts.length)
    ∧ (∀ ts1 ts2, fakeEmbed (fun _ => List.replicate 32 0) 1536 (ts1 ++ ts2)
        = fakeEmbed (fun _ => List.replicate 32 0) 1536 ts1
          ++ fakeEmbed (fun _ => List.replicate 32 0) 1536 ts2)
    ∧ (∀ texts v, v ∈ fakeEmbed (fun _ => List.replicate 32 0) 1536 texts →
        v.length = 1536 ∧ ∀ x ∈ v, 0 ≤ x ∧ x ≤ 1)
    ∧ (∀ s1 s2, stringBytes s1 = stringBytes s2 →
        fakeEmbedOne (fun _ => List.replicate 32 0) 1536 s1
          = fakeEmbedOne (fun _ => List.replicate 32 0) 1536 s2) :=
  fake_embed_spec (fun _ => List.replicate 32 0) 1536
    (fun _ => by simp)
    (fun _ b hb => by
      rcases List.eq_of_mem_replicate hb with rfl
      norm_num)

/-! ### Upsert clears the fallback store: claim C1 -/

/-- C1 evaluated at the failing input: the fallback store holds the two
records docA:0 and docB:0; upsert_chunks is called with a single chunk whose
id docA:0 is already present. Because the fallback path clears the store
before inserting, the surviving ids are exactly [docA:0]: the record docB:0,
whose id is not among the upserted chunks, is deleted instead of remaining
unchanged. -/
theorem upsert_chunks_clears_other_records :
    (upsert_chunks
        [ { id := "docA:0", text := "old text A"
            metadata := { document_id := "docA", source := "a.md"
                          collection := "other", title := none, year := none
                          doctrine := none, tags := MetaTags.ofString ""
                          chunk_index := 0, chunk_count := 1 }
            embedding := [] },
          { id := "docB:0", text := "text B"
            metadata := { document_id := "docB", source := "b.md"
                          collection := "other", title := none, year := none
                          doctrine := none, tags := MetaTags.ofString ""
                          chunk_index := 0, chunk_count := 1 }
            embedding := [] } ]
        [ { id := "docA:0", text := "new text A"
            metadata := { document_id := "docA", source := "a.md"
                          collection := "other", title := none, year := none
                          doctrine := none, tags := [] }
            chunk_index := 0, chunk_count := 1 } ]
        [[]]).map (fun e => e.id) = ["docA:0"] := by
  rfl

/-! ### Ingestion is not atomic: claim C10 -/

/-- C10: when the embedding step of _ingest_file raises, the caller records a
failure, yet the store returned by the call no longer contains any record of
the document being re-ingested: delete_document already ran before the
embedding call, and nothing restores the deleted generation. -/
theorem ingest_file_failure_loses_previous_generation
    (store : List StoredEntry) (document_id : String)
    (chunks : List DocumentChunk) :
    ((ingest_file store document_id chunks none).2).isSome = true
    ∧ ∀ e ∈ store, e.metadata.document_id = document_id →
        e ∉ (ingest_file store document_id chunks none).1 := by
  refine ⟨rfl, ?_⟩
  intro e he heq hmem
  simp only [ingest_file, delete_document] at hmem
  rcases List.mem_filter.mp hmem with ⟨_, hb⟩
  simp [heq] at hb

/-! ### Query lemmas -/

lemma pySlice_sublist {α : Type} (l : List α) (k : ℤ) :
    List.Sublist (pySlice l k) l := by
  unfold pySlice
  split <;> exact List.take_sublist _ _

lemma pySlice_nil {α : Type} (k : ℤ) : pySlice ([] : List α) k = [] := by
  unfold pySlice
  split <;> simp

lemma query_eq (store : List StoredEntry)
    (providerEmbed : List String → List (List ℝ)) (query_text : String)
    (top_k : ℤ) (min_score : ℝ) (collections : List String) :
    query store providerEmbed query_text top_k min_score collections
    = pySlice (List.insertionSort scoreGE (store.filterMap fun entry =>
        if collections ≠ [] ∧ entry.metadata.collection ∉ collections then none
        else if cosine_similarity ((providerEmbed [query_text]).getD 0 [])
            entry.embedding < min_score then none
        else some { id := entry.id
                    text := entry.text
                    score := cosine_similarity
                      ((providerEmbed [query_text]).getD 0 []) entry.embedding
                    metadata := restoreMetaTags entry.metadata })) top_k := rfl

lemma query_hit_of_mem {store : List StoredEntry}
    {providerEmbed : List String → List (List ℝ)} {query_text : String}
    {top_k : ℤ} {min_score : ℝ} {collections : List String} {r : SearchResult}
    (hr : r ∈ query store providerEmbed query_text top_k min_score collections) :
    min_score ≤ r.score
    ∧ (collections ≠ [] → r.metadata.collection ∈ collections)
    ∧ ∃ entry ∈ store,
        r = { id := entry.id
              text := entry.text
              score := cosine_similarity
                ((providerEmbed [query_text]).getD 0 []) entry.embedding
              metadata := restoreMetaTags entry.metadata } := by
  rw [query_eq] at hr
  have hr2 := (pySlice_sublist _ top_k).subset hr
  rw [List.mem_insertionSort] at hr2
  rcases List.mem_filterMap.mp hr2 with ⟨entry, hmem, hf⟩
  by_cases hc : collections ≠ [] ∧ entry.metadata.collection ∉ collections
  · rw [if_pos hc] at hf
    exact absurd hf (by simp)
  · rw [if_neg hc] at hf
    by_cases hs : cosine_similarity ((providerEmbed [query_text]).getD 0 [])
        entry.embedding < min_score
    · rw [if_pos hs] at hf
      exact absurd hf (by simp)
    · rw [if_neg hs] at hf
      have hfr := Option.some.inj hf
      push_neg at hc
      refine ⟨?_, ?_, entry, hmem, hfr.symm⟩
      · rw [← hfr]
        exact not_lt.mp hs
      · intro hne
        rw [← hfr]
        exact hc hne

/-- C4: every query answer holds at most top_k results (for a nonnegative
top_k), keeps only results scoring at least min_score, is ordered by score
descending, and, when a collections filter is given, contains only results
whose metadata collection belongs to the filter. -/
theorem query_results_spec (store : List StoredEntry)
    (providerEmbed : List String → List (List ℝ)) (query_text : String)
    (top_k : ℤ) (min_score : ℝ) (collections : List String)
    (htk : 0 ≤ top_k) :
    (((query store providerEmbed query_text top_k min_score collections).length : ℤ)
        ≤ top_k)
    ∧ (∀ r ∈ query store providerEmbed query_text top_k min_score collections,
        min_score ≤ r.score)
    ∧ List.Pairwise scoreGE
        (query store providerEmbed query_text top_k min_score collections)
    ∧ (collections ≠ [] →
        ∀ r ∈ query store providerEmbed query_text top_k min_score collections,
          r.metadata.collection ∈ collections) := by
  refine ⟨?_, ?_, ?_, ?_⟩
  · rw [query_eq]
    unfold pySlice
    rw [if_pos htk, List.length_take]
    omega
  · intro r hr
    exact (query_hit_of_mem hr).1
  · rw [query_eq]
    exact (List.sorted_insertionSort scoreGE _).sublist (pySlice_sublist _ top_k)
  · intro hne r hr
    exact (query_hit_of_mem hr).2.1 hne

/-- Witness for C4 at concrete arguments (empty store, constant provider,
top_k = 3). -/
theorem query_results_spec_witness :
    (((query [] (fun _ => []) "q" 3 0 []).length : ℤ) ≤ 3)
    ∧ (∀ r ∈ query [] (fun _ => []) "q" 3 0 [], (0 : ℝ) ≤ r.score)
    ∧ List.Pairwise scoreGE (query [] (fun _ => []) "q" 3 0 [])
    ∧ (([] : List String) ≠ [] → ∀ r ∈ query [] (fun _ => []) "q" 3 0 [],
        r.metadata.collection ∈ ([] : List String)) :=
  query_results_spec [] (fun _ => []) "q" 3 0 [] (by norm_num)

/-! ### Claim C3: the search entrypoint does not validate its parameters -/

/-- C3 counterexample: the search entrypoint called with top_k = 0 — a value
the claim says is rejected with an input-validation error before the store
is queried — instead queries the one-record store and returns Except.ok []
without raising anything. -/
theorem search_counterexample_top_k_zero :
    search_wargame_documents
      [ { id := "docA:0", text := "some text"
          metadata := { document_id := "docA", source := "a.md"
                        collection := "other", title := none, year := none
                        doctrine := none, tags := MetaTags.ofString ""
                        chunk_index := 0, chunk_count := 1 }
          embedding := [] } ]
      (fun _ => []) "query" 0 0 [] = Except.ok [] := by
  rfl

/-- C3 amended: search_wargame_documents performs no input validation at all:
for every call, whatever the values of top_k and min_score, it returns
Except.ok with the query results (the bounds top_k ∈ [1, 50] and
min_score ∈ [0, 1] are enforced only by the CLI collaborator's option
parser); a zero top_k yields Except.ok [] and a min_score above 1 yields
Except.ok [], in both cases without an error. -/
theorem search_wargame_documents_never_rejects (store : List StoredEntry)
    (providerEmbed : List String → List (List ℝ)) (query_text : String)
    (top_k : ℤ) (min_score : ℝ) (collections : List String) :
    (∃ hits, search_wargame_documents store providerEmbed query_text top_k
        min_score collections = Except.ok hits)
    ∧ (top_k = 0 → search_wargame_documents store providerEmbed query_text
        top_k min_score collections = Except.ok [])
    ∧ (1 < min_score → search_wargame_documents store providerEmbed query_text
        top_k min_score collections = Except.ok []) := by
  refine ⟨⟨_, rfl⟩, ?_, ?_⟩
  · intro h0
    subst h0
    unfold search_wargame_documents
    rw [query_eq]
    unfold pySlice
    rw [if_pos (le_refl 0)]
    simp
  · intro hms
    unfold search_wargame_documents
    rw [query_eq]
    have hnil : (store.filterMap fun entry =>
        (if collections ≠ [] ∧ entry.metadata.collection ∉ collections then none
        else if cosine_similarity ((providerEmbed [query_text]).getD 0 [])
            entry.embedding < min_score then none
        else some { id := entry.id
                    text := entry.text
                    score := cosine_similarity
                      ((providerEmbed [query_text]).getD 0 []) entry.embedding
                    metadata := restoreMetaTags entry.metadata }
          : Option SearchResult)) = [] := by
      rw [List.filterMap_eq_nil_iff]
      intro entry hmem
      by_cases hc : collections ≠ [] ∧ entry.metadata.collection ∉ collections
      · rw [if_pos hc]
      · rw [if_neg hc,
          if_pos (lt_of_le_of_lt (cosine_similarity_le_one _ _) hms)]
    rw [hnil]
    rw [show List.insertionSort scoreGE [] = [] from rfl, pySlice_nil]

/-! ### Claim C6: the span window -/

lemma get_document_span_eq_ok (store : List StoredEntry) (document_id : String)
    (center_chunk_index span : ℤ) (h : 0 ≤ span) :
    get_document_span store document_id center_chunk_index span
    = (if ((store.filter fun e => e.metadata.document_id = document_id).map
          fun e => ({ id := none
                      chunk_index := e.metadata.chunk_index
                      text := e.text
                      metadata := normalize_metadata e.metadata } : SpanChunk)).isEmpty
       then Except.ok []
       else Except.ok ((List.insertionSort chunkIndexLE
          ((store.filter fun e => e.metadata.document_id = document_id).map
            fun e => ({ id := none
                        chunk_index := e.metadata.chunk_index
                        text := e.text
                        metadata := normalize_metadata e.metadata } : SpanChunk))).filter
          fun c => max 0 (center_chunk_index - span) ≤ c.chunk_index
            ∧ c.chunk_index ≤ center_chunk_index + span)) := by
  unfold get_document_span
  rw [if_neg (not_lt.mpr h)]

/-- C6: a negative span is rejected with the input-validation error before
the store is read; otherwise the call returns Except.ok with exactly the
stored chunks of the document whose chunk_index lies between
max 0 (center - span) and center + span (so no returned chunk has a
negative index), sorted by chunk_index ascending; a document with no stored
chunks gives the empty list, not an error (cs is then empty, since every
returned chunk comes from a stored record of the document). -/
theorem get_document_span_spec (store : List StoredEntry)
    (document_id : String) (center_chunk_index span : ℤ) :
    (span < 0 → get_document_span store document_id center_chunk_index span
        = Except.error "span must be >= 0")
    ∧ (0 ≤ span → ∃ cs,
        get_document_span store document_id center_chunk_index span
          = Except.ok cs
        ∧ (∀ c ∈ cs, 0 ≤ c.chunk_index
            ∧ max 0 (center_chunk_index - span) ≤ c.chunk_index
            ∧ c.chunk_index ≤ center_chunk_index + span
            ∧ ∃ e ∈ store, e.metadata.document_id = document_id
                ∧ c.chunk_index = e.metadata.chunk_index ∧ c.text = e.text
                ∧ c.metadata = normalize_metadata e.metadata)
        ∧ (∀ e ∈ store, e.metadata.document_id = document_id →
            max 0 (center_chunk_index - span) ≤ e.metadata.chunk_index →
            e.metadata.chunk_index ≤ center_chunk_index + span →
            ∃ c ∈ cs, c.chunk_index = e.metadata.chunk_index ∧ c.text = e.text)
        ∧ List.Pairwise chunkIndexLE cs) := by
  constructor
  · intro h
    unfold get_document_span
    rw [if_pos h]
  · intro h
    rw [get_document_span_eq_ok store document_id center_chunk_index span h]
    by_cases he : ((store.filter fun e => e.metadata.document_id = document_id).map
        fun e => ({ id := none
                    chunk_index := e.metadata.chunk_index
                    text := e.text
                    metadata := normalize_metadata e.metadata } : SpanChunk)).isEmpty
    · rw [if_pos he]
      refine ⟨[], rfl, ?_, ?_, List.Pairwise.nil⟩
      · intro c hc
        exact absurd hc (List.not_mem_nil c)
      · intro e he2 hdoc hlo hhi
        exfalso
        have hmem : ({ id := none
                       chunk_index := e.metadata.chunk_index
                       text := e.text
                       metadata := normalize_metadata e.metadata } : SpanChunk)
            ∈ ((store.filter fun x => x.metadata.document_id = document_id).map
              fun x => ({ id := none
                          chunk_index := x.metadata.chunk_index
                          text := x.text
                          metadata := normalize_metadata x.metadata } : SpanChunk)) :=
          List.mem_map_of_mem _ (List.mem_filter.mpr ⟨he2, by simp [hdoc]⟩)
        rw [List.isEmpty_iff] at he
        rw [he] at hmem
        exact absurd hmem (List.not_mem_nil _)
    · rw [if_neg he]
      refine ⟨_, rfl, ?_, ?_, ?_⟩
      · intro c hc
        have hcond := (List.mem_filter.mp hc).2
        simp only [decide_eq_true_eq] at hcond
        have hmem := (List.mem_filter.mp hc).1
        rw [List.mem_insertionSort] at hmem
        rcases List.mem_map.mp hmem with ⟨e, hef, rfl⟩
        have he2 := List.mem_filter.mp hef
        simp only [decide_eq_true_eq] at he2
        refine ⟨le_trans (le_max_left 0 _) hcond.1, hcond.1, hcond.2,
          e, he2.1, he2.2, rfl, rfl, rfl⟩
      · intro e he2 hdoc hlo hhi
        refine ⟨{ id := none
                  chunk_index := e.metadata.chunk_index
                  text := e.text
                  metadata := normalize_metadata e.metadata }, ?_, rfl, rfl⟩
        refine List.mem_filter.mpr ⟨?_, ?_⟩
        · rw [List.mem_insertionSort]
          exact List.mem_map_of_mem _ (List.mem_filter.mpr ⟨he2, by simp [hdoc]⟩)
        · simp only [decide_eq_true_eq]
          exact ⟨hlo, hhi⟩
      · exact (List.sorted_insertionSort chunkIndexLE _).sublist
          (List.filter_sublist _)

/-! ### Claim C8: the tags round trip -/

lemma readTagsString_pyJoinComma (l : List String)
    (h : ∀ t ∈ l, pyStrip t = t ∧ t ≠ "" ∧ ',' ∉ t.toList) :
    readTagsString (pyJoinComma l) = l := by
  unfold readTagsString pySplitComma pyJoinComma
  rw [show (List.asString (List.intercalate [','] (l.map String.toList))).toList
      = List.intercalate [','] (l.map String.toList) from rfl]
  by_cases hl : l = []
  · subst hl
    rfl
  · have hsplit : (List.intercalate [','] (l.map String.toList)).splitOn ','
        = l.map String.toList := by
      apply List.splitOn_intercalate
      · intro cs hcs
        rcases List.mem_map.mp hcs with ⟨t, ht, rfl⟩
        exact (h t ht).2.2
      · simpa using hl
    rw [hsplit, List.map_map, List.map_map]
    have hmap : l.map ((pyStrip ∘ List.asString) ∘ String.toList) = l := by
      have hpt : ∀ t ∈ l, ((pyStrip ∘ List.asString) ∘ String.toList) t = id t := by
        intro t ht
        show pyStrip (List.asString (String.toList t)) = t
        rw [show List.asString (String.toList t) = t from rfl]
        exact (h t ht).1
      rw [List.map_congr_left hpt, List.map_id]
    rw [hmap]
    rw [List.filter_eq_self.mpr ?_]
    intro t ht
    simpa using (h t ht).2.1

lemma query_singleton (entry : StoredEntry)
    (providerEmbed : List String → List (List ℝ)) (query_text : String) :
    query [entry] providerEmbed query_text 1 0 []
    = [{ id := entry.id
         text := entry.text
         score := cosine_similarity ((providerEmbed [query_text]).getD 0 [])
           entry.embedding
         metadata := restoreMetaTags entry.metadata }] := by
  rw [query_eq]
  simp only [List.filterMap_cons, List.filterMap_nil]
  rw [if_neg (by simp), if_neg (not_lt.mpr (cosine_similarity_nonneg _ _))]
  rfl

/-- C8 counterexample: a chunk whose tags list is the single tag "a,b" —
a list of strings — is upserted and read back via query, and the returned
tags metadata field is the two-element list ["a", "b"], not the original
one-element list, because the joined string is split at every comma. -/
theorem tags_roundtrip_counterexample :
    ((query (upsert_chunks []
        [ { id := "doc:0", text := "t"
            metadata := { document_id := "doc", source := "d.md"
                          collection := "other", title := none, year := none
                          doctrine := none, tags := ["a,b"] }
            chunk_index := 0, chunk_count := 1 } ]
        [[]]) (fun _ => []) "q" 1 0 []).map (fun r => r.metadata.tags)
      = [MetaTags.ofList ["a", "b"]])
    ∧ (["a", "b"] : List String) ≠ ["a,b"] := by
  constructor
  · rw [show upsert_chunks []
        [ { id := "doc:0", text := "t"
            metadata := { document_id := "doc", source := "d.md"
                          collection := "other", title := none, year := none
                          doctrine := none, tags := ["a,b"] }
            chunk_index := 0, chunk_count := 1 } ]
        [[]]
      = [{ id := "doc:0", text := "t"
           metadata := { document_id := "doc", source := "d.md"
                         collection := "other", title := none, year := none
                         doctrine := none
                         tags := MetaTags.ofString (pyJoinComma ["a,b"])
                         chunk_index := 0, chunk_count := 1 }
           embedding := [] }] from rfl]
    rw [query_singleton]
    decide
  · decide

/-- C8 amended: the round trip holds exactly for well-formed tag lists —
every tag nonempty, comma-free and whitespace-trimmed (Python strip leaves
it unchanged). For such a chunk, upserting it and reading it back via query
returns a tags metadata field equal to the original list; a tag containing
a comma, surrounding whitespace or the empty string is not restored
verbatim, as the counterexample shows. -/
theorem tags_roundtrip_wellformed_spec (c : DocumentChunk)
    (providerEmbed : List String → List (List ℝ)) (query_text : String)
    (v : List ℝ)
    (h : ∀ t ∈ c.metadata.tags, pyStrip t = t ∧ t ≠ "" ∧ ',' ∉ t.toList) :
    (query (upsert_chunks [] [c] [v]) providerEmbed query_text 1 0 []).map
        (fun r => r.metadata.tags)
      = [MetaTags.ofList c.metadata.tags] := by
  have hstore : upsert_chunks [] [c] [v]
      = [{ id := c.id
           text := c.text
           metadata := { chroma_metadata c with
                           tags := flattenTags (chroma_metadata c).tags }
           embedding := v }] := rfl
  rw [hstore, query_singleton]
  simp only [List.map_cons, List.map_nil]
  have htags : restoreTags (flattenTags (chroma_metadata c).tags)
      = MetaTags.ofList c.metadata.tags := by
    show MetaTags.ofList (readTagsString (pyJoinComma c.metadata.tags))
        = MetaTags.ofList c.metadata.tags
    rw [readTagsString_pyJoinComma c.metadata.tags h]
  rw [show restoreMetaTags { chroma_metadata c with
        tags := flattenTags (chroma_metadata c).tags }
      = { chroma_metadata c with
            tags := restoreTags (flattenTags (chroma_metadata c).tags) } from rfl]
  rw [htags]

/-- Witness for C8 at a concrete well-formed chunk with tags
["alpha", "beta"]. -/
theorem tags_roundtrip_wellformed_spec_witness :
    (query (upsert_chunks []
        [ { id := "doc:0", text := "t"
            metadata := { document_id := "doc", source := "d.md"
                          collection := "other", title := none, year := none
                          doctrine := none, tags := ["alpha", "beta"] }
            chunk_index := 0, chunk_count := 1 } ]
        [[]]) (fun _ => []) "q" 1 0 []).map (fun r => r.metadata.tags)
      = [MetaTags.ofList ["alpha", "beta"]] :=
  tags_roundtrip_wellformed_spec
    { id := "doc:0", text := "t"
      metadata := { document_id := "doc", source := "d.md"
                    collection := "other", title := none, year := none
                    doctrine := none, tags := ["alpha", "beta"] }
      chunk_index := 0, chunk_count := 1 }
    (fun _ => []) "q" [] (by decide)

end Wargame
